import Mathlib

/-! Verification of the briefing renderer (tp-dashboard).

A shallow embedding of the pure string-processing helpers of the dashboard
component (`src/app/page.tsx`, with the earlier revisions in
`src/unnamed/part_000` and `src/unnamed/part_001`):

* `parseSections`   — splits markdown on the `/###\s+/` marker, classifies each
  part's first line against the fixed `SECTION_CONFIG` table by
  case-insensitive substring match, and keeps parts with non-empty bodies;
* `highlightNumbers` — the global regex replacement
  `/(?<![<\w\d#/])(\d[\d,]*\.?\d*(?:\+|↑|↓|%|B|K|M|x)?)/g` wrapping numeric
  tokens in a styling span;
* `formatBullets`   — per-line formatting: ordinal stripping, `**…**`
  emphasis spans, numeric highlighting, bullet/paragraph block selection;
* `toggleActionItem` — the to-do-list completed-flag toggle.

Modelling conventions:

* JavaScript strings are modelled as `List Char`.
* Regex matching is transcribed by hand.  The regexes involved are
  backtracking-free on every input (each sub-pattern after the mandatory
  first character is optional or star-quantified over disjoint character
  classes), so a greedy left-to-right scan is an exact model, mirroring how
  a JS `RegExp.prototype[Symbol.replace]` with the `g` flag walks the input.
* The scanners are defined with an explicit fuel argument instantiated with
  the input length (each step consumes at least one input character, so this
  fuel is always sufficient); fuel-irrelevance lemmas recover the natural
  recurrences.
* `String.prototype.toUpperCase` is modelled by `Char.toUpper`, which is the
  identity outside ASCII; all category keys are ASCII, so the classification
  predicate agrees with the source on ASCII headings.
* JSX output is abstracted to its text payload: a rendered line is either a
  bullet block or a paragraph block carrying its inline HTML string, and an
  empty (skipped) line is `none`.
-/

namespace TPDash

/-- Characters matched by JavaScript `\s` (and removed by `String.trim`):
ASCII whitespace, NBSP, BOM, and the Unicode space separators /
line terminators. -/
def isJsSpace (c : Char) : Bool :=
  c == ' ' || c == '\t' || c == '\n' || c == '\r' || c == '\x0b' || c == '\x0c' ||
  c == ' ' || c == ' ' || c == ' ' || c == ' ' ||
  c == ' ' || c == ' ' || c == ' ' || c == ' ' ||
  c == ' ' || c == ' ' || c == ' ' || c == ' ' ||
  c == ' ' || c == ' ' || c == ' ' || c == ' ' ||
  c == ' ' || c == '　' || c == '﻿'

/-- `String.prototype.trim`: drop `\s`-characters from both ends. -/
def jsTrim (cs : List Char) : List Char :=
  ((cs.dropWhile isJsSpace).reverse.dropWhile isJsSpace).reverse

/-- `String.prototype.split("\n")`. -/
def splitNL : List Char → List (List Char)
  | [] => [[]]
  | c :: cs => if c == '\n' then [] :: splitNL cs else
      match splitNL cs with
      | [] => [[c]]
      | p :: ps => (c :: p) :: ps

/-- `Array.prototype.join("\n")`. -/
def joinNL : List (List Char) → List Char
  | [] => []
  | [l] => l
  | l :: ls => l ++ '\n' :: joinNL ls

/-- Prepend a character to the first piece of a split result. -/
def consHead (c : Char) : List (List Char) → List (List Char)
  | [] => [[c]]
  | p :: ps => (c :: p) :: ps

/-- `String.prototype.toUpperCase`, modelled character-wise (ASCII-faithful). -/
def upperL (cs : List Char) : List Char := cs.map Char.toUpper

/-- Boolean prefix test on character lists. -/
def startsWithB : List Char → List Char → Bool
  | [], _ => true
  | _ :: _, [] => false
  | a :: as, b :: bs => a == b && startsWithB as bs

/-- `String.prototype.includes`: `isInfixB needle hay` is true iff `needle`
occurs contiguously in `hay`. -/
def isInfixB (needle : List Char) : List Char → Bool
  | [] => startsWithB needle []
  | c :: cs => startsWithB needle (c :: cs) || isInfixB needle cs

/-- Shorthand: the character list of a string literal. -/
def lc (s : String) : List Char := s.toList

/-! ## The `/###\s+/` split (`markdown.split(/###\s+/)` in `parseSections`) -/

/-- Fuel-indexed scanner for `split(/###\s+/)`: at each position, either the
input starts with `###` followed by at least one `\s` character (a match:
close the current piece and greedily consume the whitespace run), or one
character is shifted onto the current piece.  Fuel `≥ length` is always
enough since every step consumes at least one character. -/
def splitHashF : Nat → List Char → List (List Char)
  | 0, cs => [cs]
  | _ + 1, [] => [[]]
  | fuel + 1, '#' :: '#' :: '#' :: c :: rest =>
      if isJsSpace c then [] :: splitHashF fuel (rest.dropWhile isJsSpace)
      else consHead '#' (splitHashF fuel ('#' :: '#' :: c :: rest))
  | fuel + 1, c :: cs => consHead c (splitHashF fuel cs)

/-- `markdown.split(/###\s+/)`. -/
def splitHash (cs : List Char) : List (List Char) := splitHashF cs.length cs

/-! ## Section classification (`parseSections`, `src/app/page.tsx:57-87`) -/

/-- The icon / gradient payload of a `SECTION_CONFIG` entry. -/
structure SectionStyle where
  icon : List Char
  gradient : List Char
deriving DecidableEq

/-- The fixed label table `SECTION_CONFIG`, in declaration order
(`Object.entries` iterates string keys in insertion order). -/
def SECTION_CONFIG : List (List Char × SectionStyle) :=
  [ (lc "COMMUNITY PULSE", ⟨lc "📡", lc "from-amber-500/10 to-transparent"⟩),
    (lc "KEY DEVELOPMENTS", ⟨lc "⚡", lc "from-orange-500/10 to-transparent"⟩),
    (lc "WHAT THIS MEANS FOR TP", ⟨lc "🎯", lc "from-amber-600/10 to-transparent"⟩) ]

/-- A classified section (`{ title, content, icon, gradient }`). -/
structure Section where
  title : List Char
  content : List Char
  icon : List Char
  gradient : List Char
deriving DecidableEq

/-- `lines[0].replace(/\*+/g, "").trim()` for `lines = part.trim().split("\n")`:
the heading text of one split part. -/
def titleOfPart (part : List Char) : List Char :=
  jsTrim (((splitNL (jsTrim part)).headD []).filter (fun c => !(c == '*')))

/-- `lines.slice(1).join("\n").trim()`: the body text of one split part. -/
def contentOfPart (part : List Char) : List Char :=
  jsTrim (joinNL ((splitNL (jsTrim part)).tail))

/-- `Object.entries(SECTION_CONFIG).find(([key]) => title.toUpperCase().includes(key))`. -/
def classifyTitle (title : List Char) : Option (List Char × SectionStyle) :=
  SECTION_CONFIG.find? (fun e => isInfixB e.1 (upperL title))

/-- The `for (const part of parts)` loop body of `parseSections`: skip
whitespace-only parts (`if (!part.trim()) continue`), classify the heading,
and push a section when both a match and a non-empty body exist
(`if (content && match)`). -/
def parseSectionsLoop : List (List Char) → List Section
  | [] => []
  | part :: rest =>
      if jsTrim part = [] then parseSectionsLoop rest
      else
        match classifyTitle (titleOfPart part) with
        | some e =>
            if contentOfPart part = [] then parseSectionsLoop rest
            else { title := e.1, content := contentOfPart part,
                   icon := e.2.icon, gradient := e.2.gradient } :: parseSectionsLoop rest
        | none => parseSectionsLoop rest

/-- `parseSections` of `src/app/page.tsx`. -/
def parseSections (md : List Char) : List Section :=
  parseSectionsLoop (splitHash md)

/-- The per-part contribution of `parseSections`, as a partial map: `some`
exactly for parts with a classified heading and a non-empty trimmed body. -/
def sectionOfPart (part : List Char) : Option Section :=
  match classifyTitle (titleOfPart part) with
  | some e =>
      if contentOfPart part = [] then none
      else some { title := e.1, content := contentOfPart part,
                  icon := e.2.icon, gradient := e.2.gradient }
  | none => none

/-- Error-aware variant of the loop: the single indexed access `lines[0]` is
modelled through `List.head?`, and the whole run aborts with `none` if it
were ever to fail (it never does — see `parseSectionsLoopE_eq`). -/
def parseSectionsLoopE : List (List Char) → Option (List Section)
  | [] => some []
  | part :: rest =>
      if jsTrim part = [] then parseSectionsLoopE rest
      else
        match (splitNL (jsTrim part)).head? with
        | none => none
        | some l0 =>
            match classifyTitle (jsTrim (l0.filter (fun c => !(c == '*')))) with
            | some e =>
                if contentOfPart part = [] then parseSectionsLoopE rest
                else (parseSectionsLoopE rest).map
                  (fun ss => { title := e.1, content := contentOfPart part,
                               icon := e.2.icon, gradient := e.2.gradient } :: ss)
            | none => parseSectionsLoopE rest

/-- Error-aware `parseSections`. -/
def parseSectionsE (md : List Char) : Option (List Section) :=
  parseSectionsLoopE (splitHash md)

/-! ## The first revision's classifier (`parseSections`, `src/unnamed/part_001`) -/

/-- A section of the first revision (`{ title, content, icon }`). -/
structure SectionV1 where
  title : List Char
  content : List Char
  icon : List Char
deriving DecidableEq

/-- The `sectionMap` table of `src/unnamed/part_001` (its icon strings appear
mojibake-encoded in the source file and are copied verbatim). -/
def sectionMapV1 : List (List Char × List Char) :=
  [ (lc "COMMUNITY PULSE", lc "ðŸ“¡"),
    (lc "KEY DEVELOPMENTS", lc "âš¡"),
    (lc "WHAT THIS MEANS FOR TP", lc "ðŸŽ¯") ]

/-- `parseSections` of `src/unnamed/part_001`: same split and heading
extraction, but every part with a non-empty body is kept (the raw title is
used and an unmatched heading merely falls back to the default icon). -/
def parseSectionsV1 (md : List Char) : List SectionV1 :=
  (splitHash md).filterMap (fun part =>
    if jsTrim part = [] then none
    else
      let title := titleOfPart part
      let content := contentOfPart part
      let icon := ((sectionMapV1.find? (fun e => isInfixB e.1 (upperL title))).map
        (fun e => e.2)).getD (lc "ðŸ“‹")
      if content = [] then none else some ⟨title, content, icon⟩)

/-! ## Numeric highlighting (`highlightNumbers`, `src/app/page.tsx:89-94`)

The regex
`/(?<![<\w\d#/])(\d[\d,]*\.?\d*(?:\+|↑|↓|%|B|K|M|x)?)/g`
matches a digit-led token (digits and commas, an optional decimal point with
trailing digits, and an optional one-character suffix) whose preceding input
character, if any, is none of `<`, `#`, `/`, a letter, a digit or `_`
(JS `\w` is ASCII-only).  Every sub-pattern after the leading `\d` is
optional or star-quantified over classes that cannot fail once entered, so
the greedy scan below matches the regex engine exactly; replacement resumes
after the matched token, and the lookbehind always inspects the original
input character (the last character of the previous match). -/

/-- The optional one-character suffix class `(?:\+|↑|↓|%|B|K|M|x)`. -/
def numSuffixes : List Char := ['+', '↑', '↓', '%', 'B', 'K', 'M', 'x']

/-- The negative lookbehind `(?<![<\w\d#/])` applied to the character
preceding a candidate match (`none` at the start of the input). -/
def blockedPrev : Option Char → Bool
  | none => false
  | some c => c == '<' || c == '#' || c == '/' || c.isAlpha || c.isDigit || c == '_'

/-- Opening of the replacement span `'<span class="…">$1</span>'`. -/
def hlOpen : List Char := lc "<span class=\"text-amber-400 font-medium tabular-nums\">"

/-- Closing tag of the replacement span. -/
def hlClose : List Char := lc "</span>"

/-- Greedy continuation of a numeric token after its leading digit:
`[\d,]*` then `\.?\d*` then the optional suffix.  Returns the consumed
characters and the remaining input. -/
def munchNum (cs : List Char) : List Char × List Char :=
  let a := cs.takeWhile (fun c => c.isDigit || c == ',')
  match cs.dropWhile (fun c => c.isDigit || c == ',') with
  | [] => (a, [])
  | s :: r2 =>
      if s = '.' then
        let b := r2.takeWhile Char.isDigit
        match r2.dropWhile Char.isDigit with
        | [] => (a ++ ['.'], [])
        | s2 :: r4 =>
            if numSuffixes.contains s2 then (a ++ '.' :: (b ++ [s2]), r4)
            else (a ++ '.' :: b, s2 :: r4)
      else if numSuffixes.contains s then (a ++ [s], r2) else (a, s :: r2)

/-- Fuel-indexed scan of the global replacement: at each position a digit not
ruled out by the lookbehind starts a match, which is wrapped in the span; the
scan resumes after the token with the token's last (original) character as
the lookbehind subject. -/
def hlScanF : Nat → Option Char → List Char → List Char
  | 0, _, cs => cs
  | _ + 1, _, [] => []
  | fuel + 1, prev, c :: cs =>
      if c.isDigit && !blockedPrev prev then
        let m := munchNum cs
        hlOpen ++ (c :: m.1) ++ hlClose ++ hlScanF fuel (some (m.1.getLastD c)) m.2
      else c :: hlScanF fuel (some c) cs

/-- The replacement scan with its sufficient fuel. -/
def hlRun (prev : Option Char) (cs : List Char) : List Char :=
  hlScanF cs.length prev cs

/-- `highlightNumbers` of `src/app/page.tsx` (identical in `part_000`). -/
def highlightNumbers (html : List Char) : List Char := hlRun none html

/-- The original-input character preceding the position reached after reading
`pre`, when the character before `pre` was `prev`. -/
def prevAfter : Option Char → List Char → Option Char
  | prev, [] => prev
  | _, a :: l => prevAfter (some a) l

/-! ## Line formatting (`formatBullets`, `src/app/page.tsx:96-137`) -/

/-- A rendered line: a bullet block or a paragraph block carrying its inline
HTML payload (the JSX wrapper markup is abstracted away). -/
inductive Block where
  | bullet (html : List Char)
  | para (html : List Char)
deriving DecidableEq

/-- Opening of the emphasis span `'<span class="text-white font-semibold">'`. -/
def emOpen : List Char := lc "<span class=\"text-white font-semibold\">"

/-- Closing tag of the emphasis span. -/
def emClose : List Char := lc "</span>"

/-- JS `.` (dot) excludes the line terminators. -/
def isLineTerm (c : Char) : Bool :=
  c == '\n' || c == '\r' || c == ' ' || c == ' '

/-- For the lazy group of `/\*\*(.*?)\*\*/`: given the input following an
opening `**`, find the nearest closing `**` with only non-terminator
characters in between, returning the group and the input after the match. -/
def findBoldEnd : List Char → Option (List Char × List Char)
  | [] => none
  | '*' :: '*' :: rest => some ([], rest)
  | c :: cs =>
      if isLineTerm c then none
      else match findBoldEnd cs with
           | some (mid, rest) => some (c :: mid, rest)
           | none => none

/-- Fuel-indexed scan of `replace(/\*\*(.*?)\*\*/g, '<span …>$1</span>')`: an
opening `**` with a reachable closing `**` is replaced by the emphasis span;
otherwise the scan advances one character. -/
def boldScanF : Nat → List Char → List Char
  | 0, cs => cs
  | _ + 1, [] => []
  | fuel + 1, '*' :: '*' :: rest =>
      (match findBoldEnd rest with
       | some (mid, rest2) => emOpen ++ mid ++ emClose ++ boldScanF fuel rest2
       | none => '*' :: boldScanF fuel ('*' :: rest))
  | fuel + 1, c :: cs => c :: boldScanF fuel cs

/-- The emphasis replacement with its sufficient fuel. -/
def boldScan (cs : List Char) : List Char := boldScanF cs.length cs

/-- `replace(/^\d+\.\s*/, "")`: strip a leading ordinal-list marker. -/
def stripOrdinal (cs : List Char) : List Char :=
  if (cs.takeWhile Char.isDigit) = [] then cs
  else match cs.dropWhile Char.isDigit with
       | '.' :: r => r.dropWhile isJsSpace
       | _ => cs

/-- `/^\d+\./.test(trimmed)`. -/
def isNumberedB (cs : List Char) : Bool :=
  !(cs.takeWhile Char.isDigit).isEmpty &&
    (match cs.dropWhile Char.isDigit with
     | '.' :: _ => true
     | _ => false)

/-- `trimmed.startsWith("-") || trimmed.startsWith("•")`. -/
def isBulletB (cs : List Char) : Bool :=
  match cs with
  | c :: _ => c == '-' || c == '•'
  | [] => false

/-- `formatted.replace(/^[-•]\s*/, "")`: strip a leading bullet glyph and the
whitespace after it. -/
def stripBullet (cs : List Char) : List Char :=
  match cs with
  | c :: rest => if c == '-' || c == '•' then rest.dropWhile isJsSpace else cs
  | [] => []

/-- The per-line body of `formatBullets`: `none` for a blank line, otherwise
the formatted bullet or paragraph block. -/
def formatLine (line : List Char) : Option Block :=
  let trimmed := jsTrim line
  if trimmed = [] then none
  else
    let formatted := highlightNumbers (boldScan (stripOrdinal trimmed))
    if isBulletB trimmed || isNumberedB trimmed then
      some (Block.bullet (stripBullet formatted))
    else some (Block.para formatted)

/-- `formatBullets` of `src/app/page.tsx`: one (optional) block per line. -/
def formatBullets (text : List Char) : List (Option Block) :=
  (splitNL text).map formatLine

/-! ## Action items (`toggleActionItem`, `src/app/page.tsx:640-646`) -/

/-- `{ id, text, completed }` of the local to-do list. -/
structure ActionItem where
  id : List Char
  text : List Char
  completed : Bool
deriving DecidableEq

/-- `toggleActionItem`: flip the `completed` flag of every item whose id
equals the target, keep every other item as is. -/
def toggleActionItem (tid : List Char) (items : List ActionItem) : List ActionItem :=
  items.map (fun item =>
    if item.id == tid then { item with completed := !item.completed } else item)

/-- Digit-freeness of a segment (used to state the highlighting properties). -/
def noDigitB (cs : List Char) : Bool := cs.all (fun c => !c.isDigit)

/-! ## Helper lemmas -/

/-- `split("\n")` never yields an empty list of pieces. -/
theorem splitNL_ne_nil (cs : List Char) : splitNL cs ≠ [] := by
  induction cs with
  | nil => simp [splitNL]
  | cons c cs ih =>
    simp only [splitNL]
    split
    · simp
    · split <;> simp

/-- `find?` returns the head of the filtered list: the first-declared match. -/
theorem find_eq_filter_head {α : Type} (p : α → Bool) (l : List α) :
    l.find? p = (l.filter p).head? := by
  induction l with
  | nil => rfl
  | cons a t ih =>
    rw [List.find?_cons, List.filter_cons]
    cases h : p a
    · simp only [h, ih, if_neg]
      simp
    · simp only [h, if_pos]
      simp

/-- `dropWhile` never lengthens a list. -/
theorem len_dropWhile_le (p : Char → Bool) (l : List Char) :
    (l.dropWhile p).length ≤ l.length := by
  induction l with
  | nil => simp [List.dropWhile]
  | cons a l ih =>
    simp only [List.dropWhile]
    cases h : p a
    · simp
    · simp only []
      exact Nat.le_succ_of_le ih

/-- The rest returned by `munchNum` is a suffix-part of the input: its length
never exceeds the input's. -/
theorem munchNum_snd_le (cs : List Char) : (munchNum cs).2.length ≤ cs.length := by
  unfold munchNum
  have h1 : (cs.dropWhile (fun c => c.isDigit || c == ',')).length ≤ cs.length :=
    len_dropWhile_le _ cs
  cases hd : cs.dropWhile (fun c => c.isDigit || c == ',') with
  | nil => simp
  | cons s r2 =>
    rw [hd] at h1
    simp only [List.length_cons] at h1
    dsimp only
    by_cases hs : s = '.'
    · rw [if_pos hs]
      have h2 : (r2.dropWhile Char.isDigit).length ≤ r2.length :=
        len_dropWhile_le _ r2
      cases hd2 : r2.dropWhile Char.isDigit with
      | nil => simp
      | cons s2 r4 =>
        rw [hd2] at h2
        simp only [List.length_cons] at h2
        dsimp only
        by_cases hsuf : numSuffixes.contains s2
        · rw [if_pos hsuf]
          dsimp only
          omega
        · rw [if_neg hsuf]
          simp only [List.length_cons]
          omega
    · rw [if_neg hs]
      by_cases hsuf : numSuffixes.contains s
      · rw [if_pos hsuf]
        dsimp only
        omega
      · rw [if_neg hsuf]
        simp only [List.length_cons]
        omega

/-- Any fuel at least the input length computes the same replacement scan. -/
theorem hlScanF_congr (f g : Nat) (prev : Option Char) (cs : List Char)
    (hf : cs.length ≤ f) (hg : cs.length ≤ g) :
    hlScanF f prev cs = hlScanF g prev cs := by
  induction f generalizing g prev cs with
  | zero =>
    have h0 : cs = [] := List.length_eq_zero.mp (Nat.le_zero.mp hf)
    subst h0
    cases g <;> simp [hlScanF]
  | succ f ih =>
    cases cs with
    | nil => cases g <;> simp [hlScanF]
    | cons c cs =>
      cases g with
      | zero => simp at hg
      | succ g =>
        have hf' : cs.length ≤ f := by
          simp only [List.length_cons] at hf; omega
        have hg' : cs.length ≤ g := by
          simp only [List.length_cons] at hg; omega
        simp only [hlScanF]
        by_cases hc : (c.isDigit && !blockedPrev prev) = true
        · rw [if_pos hc, if_pos hc,
            ih g _ _ (le_trans (munchNum_snd_le cs) hf') (le_trans (munchNum_snd_le cs) hg')]
        · rw [if_neg hc, if_neg hc, ih g _ _ hf' hg']

/-- The natural recurrence of the replacement scan. -/
theorem hlRun_cons (prev : Option Char) (c : Char) (cs : List Char) :
    hlRun prev (c :: cs) =
      if c.isDigit && !blockedPrev prev then
        hlOpen ++ (c :: (munchNum cs).1) ++ hlClose ++
          hlRun (some ((munchNum cs).1.getLastD c)) (munchNum cs).2
      else c :: hlRun (some c) cs := by
  show hlScanF (c :: cs).length prev (c :: cs) = _
  rw [show (c :: cs).length = cs.length + 1 from rfl]
  simp only [hlScanF]
  by_cases hc : (c.isDigit && !blockedPrev prev) = true
  · rw [if_pos hc, if_pos hc,
      hlScanF_congr cs.length (munchNum cs).2.length _ _ (munchNum_snd_le cs) le_rfl]
    rfl
  · rw [if_neg hc, if_neg hc]
    rfl

/-- A whitespace-only part has an empty heading after stripping and trimming. -/
theorem titleOfPart_of_trim_nil (part : List Char) (h : jsTrim part = []) :
    titleOfPart part = [] := by
  unfold titleOfPart
  rw [h]
  rfl

/-- The loop of `parseSections` is the `filterMap` of the per-part
contribution: the `continue` on whitespace-only parts is subsumed because
such parts classify to `none`. -/
theorem parseSectionsLoop_eq_filterMap (parts : List (List Char)) :
    parseSectionsLoop parts = parts.filterMap sectionOfPart := by
  induction parts with
  | nil => rfl
  | cons part rest ih =>
    rw [List.filterMap_cons]
    by_cases h : jsTrim part = []
    · have hnone : sectionOfPart part = none := by
        unfold sectionOfPart
        rw [titleOfPart_of_trim_nil part h]
        have : classifyTitle [] = none := by decide
        rw [this]
      rw [hnone]
      unfold parseSectionsLoop
      rw [if_pos h, ih]
    · unfold parseSectionsLoop sectionOfPart
      rw [if_neg h]
      cases hc : classifyTitle (titleOfPart part) with
      | none => exact ih
      | some e =>
        dsimp only
        by_cases hcont : contentOfPart part = []
        · rw [if_pos hcont, if_pos hcont, ih]
          rfl
        · rw [if_neg hcont, if_neg hcont, ih]
          rfl

/-- The error-aware loop never fails and agrees with the plain loop. -/
theorem parseSectionsLoopE_eq (parts : List (List Char)) :
    parseSectionsLoopE parts = some (parseSectionsLoop parts) := by
  induction parts with
  | nil => rfl
  | cons part rest ih =>
    unfold parseSectionsLoopE parseSectionsLoop
    by_cases h : jsTrim part = []
    · rw [if_pos h, if_pos h, ih]
    · rw [if_neg h, if_neg h]
      cases hs : splitNL (jsTrim part) with
      | nil => exact absurd hs (splitNL_ne_nil _)
      | cons l0 ls =>
        have htitle : titleOfPart part = jsTrim (l0.filter (fun c => !(c == '*'))) := by
          unfold titleOfPart
          rw [hs]
          rfl
        rw [List.head?]
        dsimp only
        rw [← htitle]
        cases hc : classifyTitle (titleOfPart part) with
        | none => exact ih
        | some e =>
          dsimp only
          by_cases hcont : contentOfPart part = []
          · rw [if_pos hcont, if_pos hcont, ih]
          · rw [if_neg hcont, if_neg hcont, ih]
            rfl

/-! ## Claims -/

/-- Claim C1: for every markdown string in which no part's heading text
contains a recognized category key as a case-insensitive substring (the
code's condition `title.toUpperCase().includes(key)` is false for every part
and every key of the label table), `parseSections` returns the empty section
list; and the run raises no error (the error-aware model returns
`some []` rather than aborting). -/
theorem parseSections_no_match_empty (md : List Char)
    (h : (splitHash md).all (fun part =>
      SECTION_CONFIG.all (fun e => !(isInfixB e.1 (upperL (titleOfPart part))))) = true) :
    parseSections md = [] ∧ parseSectionsE md = some [] := by
  have hall := List.all_eq_true.mp h
  have hmain : parseSections md = [] := by
    unfold parseSections
    rw [parseSectionsLoop_eq_filterMap]
    rw [List.filterMap_eq_nil_iff]
    intro part hp
    have hk := List.all_eq_true.mp (hall part hp)
    have hnone : classifyTitle (titleOfPart part) = none := by
      unfold classifyTitle
      rw [List.find?_eq_none]
      intro e he
      have hke := hk e he
      simp only [Bool.not_eq_true'] at hke
      simp [hke]
    unfold sectionOfPart
    rw [hnone]
  refine ⟨hmain, ?_⟩
  unfold parseSectionsE
  rw [parseSectionsLoopE_eq]
  unfold parseSections at hmain
  rw [hmain]

/-- Witness for C1: a markdown document whose only heading, `WEATHER`, matches
no category key; `parseSections` yields `[]` with no error. -/
theorem parseSections_no_match_empty_witness :
    ((splitHash (lc "### WEATHER\nSunny all day")).all (fun part =>
      SECTION_CONFIG.all (fun e => !(isInfixB e.1 (upperL (titleOfPart part))))) = true) ∧
    (parseSections (lc "### WEATHER\nSunny all day") = [] ∧
      parseSectionsE (lc "### WEATHER\nSunny all day") = some []) :=
  ⟨by decide, parseSections_no_match_empty _ (by decide)⟩

/-- Claim C2: `parseSections` is exactly the `filterMap` over the
heading-delimited parts of its per-part contribution, and a part contributes
a section precisely when some entry of the label table matches its heading
text case-insensitively and its body is non-empty after trimming: a part
failing either condition is dropped. -/
theorem parseSections_contributes (md : List Char) :
    (parseSections md = (splitHash md).filterMap sectionOfPart) ∧
    ∀ part, (sectionOfPart part).isSome = true ↔
      ((∃ e ∈ SECTION_CONFIG, isInfixB e.1 (upperL (titleOfPart part)) = true) ∧
        contentOfPart part ≠ []) := by
  refine ⟨parseSectionsLoop_eq_filterMap _, ?_⟩
  intro part
  unfold sectionOfPart
  cases hf : classifyTitle (titleOfPart part) with
  | none =>
      unfold classifyTitle at hf
      have hnone := List.find?_eq_none.mp hf
      simp only [Option.isSome_none]
      constructor
      · intro hfalse
        exact absurd hfalse (by simp)
      · rintro ⟨⟨e, he, hmatch⟩, _⟩
        exact absurd hmatch (by simpa using hnone e he)
  | some e =>
      unfold classifyTitle at hf
      have hmem : e ∈ SECTION_CONFIG := List.mem_of_find?_eq_some hf
      have hmatch : isInfixB e.1 (upperL (titleOfPart part)) = true := by
        have hb := List.find?_some hf
        simpa using hb
      dsimp only
      by_cases hcont : contentOfPart part = []
      · rw [if_pos hcont]
        simp only [Option.isSome_none, Bool.false_eq_true, false_iff]
        rintro ⟨-, hne⟩
        exact hne hcont
      · rw [if_neg hcont]
        simp only [Option.isSome_some, true_iff]
        exact ⟨⟨e, hmem, hmatch⟩, hcont⟩

/-- Claim C3: when a heading text matches two or more category keys, the
classifier returns the first matching entry in the label table's declaration
order (the head of the table filtered by the match predicate). -/
theorem classifyTitle_first_declared (title : List Char)
    (_h : 2 ≤ (SECTION_CONFIG.filter (fun e => isInfixB e.1 (upperL title))).length) :
    classifyTitle title =
      (SECTION_CONFIG.filter (fun e => isInfixB e.1 (upperL title))).head? :=
  find_eq_filter_head _ _

/-- Witness for C3: a heading containing both `COMMUNITY PULSE` and
`KEY DEVELOPMENTS` matches two keys, and the first-declared one is chosen. -/
theorem classifyTitle_first_declared_witness :
    (2 ≤ (SECTION_CONFIG.filter (fun e =>
      isInfixB e.1 (upperL (lc "Community Pulse and Key Developments")))).length) ∧
    classifyTitle (lc "Community Pulse and Key Developments") =
      (SECTION_CONFIG.filter (fun e =>
        isInfixB e.1 (upperL (lc "Community Pulse and Key Developments")))).head? :=
  ⟨by decide, classifyTitle_first_declared _ (by decide)⟩

/-- Counterexample to claim C4 as stated: the claim lists a lowercase `k`
magnitude suffix, but the regex suffix class is `\+|↑|↓|%|B|K|M|x`
(uppercase `K` only, no flag `i`).  On the input `5k`, the token `5k` is not
wrapped as a unit: only `5` is wrapped and the `k` is left outside the
span. -/
theorem highlightNumbers_lowercase_k_split :
    highlightNumbers (lc "5k") =
      lc "<span class=\"text-amber-400 font-medium tabular-nums\">5</span>k" ∧
    isInfixB (hlOpen ++ lc "5k") (highlightNumbers (lc "5k")) = false := by
  constructor <;> decide

/-- Claim C4 (amended: the suffix class is `+`, `%`, uppercase `B`/`K`/`M`,
`x`, or a directional arrow — lowercase `k` is not part of it): the
replacement scan
* leaves any digit-free stretch unchanged (in particular the markup the
  formatter previously inserted, whose inserted tag text contains no digits,
  is never re-marked),
* wraps, as one unit in one numeric-style span, the full greedy token
  `\d[\d,]*\.?\d*` with its optional suffix starting at any digit whose
  preceding original character passes the lookbehind guard and is reached
  through a digit-free stretch, and
* leaves a digit untouched when the guard blocks it (the preceding original
  character is `<`, `#`, `/`, a letter, a digit or `_`, as inside a tag name
  or a heading/list marker). -/
theorem highlightNumbers_tokens :
    (∀ cs, highlightNumbers cs = hlRun none cs) ∧
    (∀ prev cs, noDigitB cs = true → hlRun prev cs = cs) ∧
    (∀ prev pre c cs, noDigitB pre = true → c.isDigit = true →
        blockedPrev (prevAfter prev pre) = false →
        hlRun prev (pre ++ c :: cs) =
          pre ++ hlOpen ++ (c :: (munchNum cs).1) ++ hlClose ++
            hlRun (some ((munchNum cs).1.getLastD c)) (munchNum cs).2) ∧
    (∀ prev c cs, c.isDigit = true → blockedPrev prev = true →
        hlRun prev (c :: cs) = c :: hlRun (some c) cs) := by
  have pass : ∀ cs (prev : Option Char), noDigitB cs = true → hlRun prev cs = cs := by
    intro cs
    induction cs with
    | nil => intro prev _; rfl
    | cons c cs ih =>
      intro prev h
      rw [noDigitB, List.all_cons] at h
      have hc : c.isDigit = false := by
        cases hdig : c.isDigit
        · rfl
        · rw [hdig] at h; simp at h
      have hcs : noDigitB cs = true := by
        rw [noDigitB]
        cases hall : cs.all (fun c => !c.isDigit)
        · rw [hall] at h; simp at h
        · rfl
      rw [hlRun_cons, if_neg (by simp [hc]), ih _ hcs]
  refine ⟨fun _ => rfl, fun prev cs h => pass cs prev h, ?_, ?_⟩
  · intro prev pre c cs hpre hc hguard
    induction pre generalizing prev with
    | nil =>
      have hguard' : blockedPrev prev = false := hguard
      rw [List.nil_append, hlRun_cons, if_pos (by simp [hc, hguard'])]
      simp [List.append_assoc]
    | cons a pre ih =>
      rw [noDigitB, List.all_cons] at hpre
      have ha : a.isDigit = false := by
        cases hdig : a.isDigit
        · rfl
        · rw [hdig] at hpre; simp at hpre
      have hpre' : noDigitB pre = true := by
        rw [noDigitB]
        cases hall : pre.all (fun c => !c.isDigit)
        · rw [hall] at hpre; simp at hpre
        · rfl
      rw [List.cons_append, hlRun_cons, if_neg (by simp [ha]),
        ih (some a) hpre' hguard]
      simp
  · intro prev c cs _hc hblocked
    rw [hlRun_cons, if_neg (by simp [hblocked])]

/-- Witness for the amended C4, instantiating each part on concrete data:
a digit-free string passes through unchanged; in `up 42% now` the token
`42%` (valid `%` suffix, guard passed after the digit-free `up `) is wrapped
as one unit; a digit preceded by a word character (as in `a7`) is left
untouched. -/
theorem highlightNumbers_tokens_witness :
    (highlightNumbers (lc "no digits here") = hlRun none (lc "no digits here")) ∧
    (noDigitB (lc "no digits here") = true ∧
      hlRun none (lc "no digits here") = lc "no digits here") ∧
    (noDigitB (lc "up ") = true ∧ ('4').isDigit = true ∧
      blockedPrev (prevAfter none (lc "up ")) = false ∧
      hlRun none (lc "up " ++ '4' :: lc "2% now") =
        lc "up " ++ hlOpen ++ ('4' :: (munchNum (lc "2% now")).1) ++ hlClose ++
          hlRun (some ((munchNum (lc "2% now")).1.getLastD '4')) (munchNum (lc "2% now")).2) ∧
    (('7').isDigit = true ∧ blockedPrev (some 'a') = true ∧
      hlRun (some 'a') ('7' :: lc " left") = '7' :: hlRun (some '7') (lc " left")) :=
  ⟨highlightNumbers_tokens.1 (lc "no digits here"),
   ⟨by decide, highlightNumbers_tokens.2.1 none (lc "no digits here") (by decide)⟩,
   ⟨by decide, by decide, by decide,
     highlightNumbers_tokens.2.2.1 none (lc "up ") '4' (lc "2% now")
       (by decide) (by decide) (by decide)⟩,
   ⟨by decide, by decide,
     highlightNumbers_tokens.2.2.2 (some 'a') '7' (lc " left")
       (by decide) (by decide)⟩⟩

/-- Claim C5: the line `- **Revenue** grew 42%` formats to a single bullet
block whose text carries `Revenue` inside the emphasis span and `42%` inside
the numeric-highlight span, with the leading bullet glyph (and its
whitespace) removed from the text. -/
theorem formatBullets_revenue_line :
    formatBullets (lc "- **Revenue** grew 42%") =
      [some (Block.bullet (lc "<span class=\"text-white font-semibold\">Revenue</span> grew <span class=\"text-amber-400 font-medium tabular-nums\">42%</span>"))] ∧
    isInfixB (emOpen ++ lc "Revenue" ++ emClose)
      (lc "<span class=\"text-white font-semibold\">Revenue</span> grew <span class=\"text-amber-400 font-medium tabular-nums\">42%</span>") = true ∧
    isInfixB (hlOpen ++ lc "42%" ++ hlClose)
      (lc "<span class=\"text-white font-semibold\">Revenue</span> grew <span class=\"text-amber-400 font-medium tabular-nums\">42%</span>") = true ∧
    (lc "<span class=\"text-white font-semibold\">Revenue</span> grew <span class=\"text-amber-400 font-medium tabular-nums\">42%</span>").head? ≠ some '-' := by
  refine ⟨by decide, by decide, by decide, by decide⟩

/-- Claim C6: the line `1. Ship the report` formats to a single bullet block
whose text is exactly `Ship the report`: the ordinal prefix is stripped and
no emphasis span and no numeric-highlight span is added. -/
theorem formatBullets_ordinal_line :
    formatBullets (lc "1. Ship the report") =
      [some (Block.bullet (lc "Ship the report"))] ∧
    isInfixB (lc "<span") (lc "Ship the report") = false := by
  refine ⟨by decide, by decide⟩

/-- Claim C7: for every input — malformed markdown included — the classifier
and the formatter complete with a result and raise no error: the error-aware
run of `parseSections` (whose only indexed access is modelled with
`List.head?`) always returns `some` of the plain result, and `formatBullets`
yields one (possibly skipped) block per input line. -/
theorem parseSections_formatBullets_total (md : List Char) :
    parseSectionsE md = some (parseSections md) ∧
    (formatBullets md).length = (splitNL md).length := by
  refine ⟨parseSectionsLoopE_eq _, ?_⟩
  unfold formatBullets
  exact List.length_map _ _

/-- Claim C8: the classifier and the formatter are pure functions of the
input text (and the fixed label table): two runs on identical input return
identical output. -/
theorem parseSections_formatBullets_deterministic (md1 md2 : List Char)
    (h : md1 = md2) :
    parseSections md1 = parseSections md2 ∧ formatBullets md1 = formatBullets md2 := by
  subst h
  exact ⟨rfl, rfl⟩

/-- Witness for C8: two runs on the same concrete document. -/
theorem parseSections_formatBullets_deterministic_witness :
    (lc "### KEY DEVELOPMENTS\nShipped 3 things" =
      lc "### KEY DEVELOPMENTS\nShipped 3 things") ∧
    (parseSections (lc "### KEY DEVELOPMENTS\nShipped 3 things") =
        parseSections (lc "### KEY DEVELOPMENTS\nShipped 3 things") ∧
      formatBullets (lc "### KEY DEVELOPMENTS\nShipped 3 things") =
        formatBullets (lc "### KEY DEVELOPMENTS\nShipped 3 things")) :=
  ⟨rfl, parseSections_formatBullets_deterministic _ _ rfl⟩

/-- Claim C9: in the revisions that split on the `###` marker, the text
before the first marker is itself a candidate part whose first line is the
heading used for classification; hence a document containing no `###` at all
can still produce sections — in the current revision a classified one, and
in the `part_001` revision a section as well. -/
theorem parseSections_preamble_section :
    isInfixB (lc "###") (lc "KEY DEVELOPMENTS\nSomething happened") = false ∧
    parseSections (lc "KEY DEVELOPMENTS\nSomething happened") =
      [{ title := lc "KEY DEVELOPMENTS", content := lc "Something happened",
         icon := lc "⚡", gradient := lc "from-orange-500/10 to-transparent" }] ∧
    parseSectionsV1 (lc "KEY DEVELOPMENTS\nSomething happened") ≠ [] := by
  refine ⟨by decide, by decide, by decide⟩

/-- Claim C10: `toggleActionItem` preserves the length and order of the
list; an item whose id differs from the target is returned unchanged, and an
item whose id equals the target keeps its id and text and only has its
completed flag flipped. -/
theorem toggleActionItem_frame (tid : List Char) (items : List ActionItem)
    (i : Nat) (a : ActionItem) (h : items[i]? = some a) :
    (toggleActionItem tid items).length = items.length ∧
    (a.id ≠ tid → (toggleActionItem tid items)[i]? = some a) ∧
    (a.id = tid →
      (toggleActionItem tid items)[i]? = some ⟨a.id, a.text, !a.completed⟩) := by
  refine ⟨List.length_map _ _, ?_, ?_⟩
  · intro hne
    unfold toggleActionItem
    rw [List.getElem?_map, h]
    have : (a.id == tid) = false := by
      cases hb : a.id == tid
      · rfl
      · exact absurd (by simpa using hb) hne
    simp [this]
    intro h'
    exact absurd h' hne
  · intro heq
    unfold toggleActionItem
    rw [List.getElem?_map, h]
    have : (a.id == tid) = true := by simp [heq]
    simp [this]
    intro h'
    exact absurd heq h'

/-- Witness for C10: toggling id `2` in a two-item list flips exactly the
second item's flag. -/
theorem toggleActionItem_frame_witness :
    (([⟨lc "1", lc "alpha", false⟩, ⟨lc "2", lc "beta", true⟩] :
        List ActionItem)[1]? = some ⟨lc "2", lc "beta", true⟩) ∧
    ((toggleActionItem (lc "2")
        [⟨lc "1", lc "alpha", false⟩, ⟨lc "2", lc "beta", true⟩]).length =
      ([⟨lc "1", lc "alpha", false⟩, ⟨lc "2", lc "beta", true⟩] :
        List ActionItem).length ∧
    ((⟨lc "2", lc "beta", true⟩ : ActionItem).id ≠ lc "2" →
      (toggleActionItem (lc "2")
        [⟨lc "1", lc "alpha", false⟩, ⟨lc "2", lc "beta", true⟩])[1]? =
        some ⟨lc "2", lc "beta", true⟩) ∧
    ((⟨lc "2", lc "beta", true⟩ : ActionItem).id = lc "2" →
      (toggleActionItem (lc "2")
        [⟨lc "1", lc "alpha", false⟩, ⟨lc "2", lc "beta", true⟩])[1]? =
        some ⟨lc "2", lc "beta", !true⟩)) :=
  ⟨by decide, toggleActionItem_frame (lc "2") _ 1 _ (by decide)⟩

end TPDash
